import Mathlib

set_option maxRecDepth 100000

/-!
Verification of the deposit payment-confirmation poller in
src/staticfiles/core/js/deposit.js.

The poller is embedded as a small-step event system over an explicit state:
the module-level variable `paymentCheckInterval` (`var`), the set of armed
interval timers (`armed`), a fresh-handle counter (`next`), the per-instance
`retryCount` map (`retry`), the handle-to-instance map for the closures
created by `setInterval` (`owner`), the list of in-flight status queries
(`inflight`), and the log of user-facing terminal callbacks (`calls`:
`(handle, true)` is `handlePaymentSuccess`, `(handle, false)` is the
timed-out toast).  Events are chosen by the environment: `start` models a
call to `startPaymentCheck`, `fire` models one firing of an armed interval
(the callback runs up to its `await fetch`), and `resolve` models the fetch
of one in-flight callback settling with a given outcome, after which the
rest of the callback body runs against the then-current state.
-/

namespace Deposit

/-- POLL_INTERVAL from deposit.js line 2: 30000 ms between ticks. -/
def POLL_INTERVAL : Nat := 30000

/-- MAX_RETRIES from deposit.js line 3: the attempt budget, 20 ticks. -/
def MAX_RETRIES : Nat := 20

/-- Outcome of one status fetch: the fetch/parse threw (`err`), or it
returned JSON with the given `data.success` flag and whether
`data.status === 'completed'`. -/
inductive Outcome where
  | err : Outcome
  | ok (success : Bool) (completed : Bool) : Outcome
  deriving DecidableEq

/-- A successful response whose status is still pending. -/
def pend : Outcome := .ok true false

/-- A successful response whose status is completed. -/
def comp : Outcome := .ok true true

/-- Whether the fetch and JSON parse succeeded (the `try` body runs past
the `await`s, so `this.retryCount++` executes). -/
def isOk : Outcome → Bool
  | .err => false
  | .ok _ _ => true

/-- Whether the response takes the `data.success && data.status === 'completed'`
branch. -/
def isComp : Outcome → Bool
  | .err => false
  | .ok s c => s && c

/-- Number of outcomes in a list that reach the `retryCount++` line. -/
def countOk : List Outcome → Nat
  | [] => 0
  | o :: os => (if isOk o then 1 else 0) + countOk os

/-- Lookup in an association list of natural-number keys, defaulting to 0. -/
def getA : List (Nat × Nat) → Nat → Nat
  | [], _ => 0
  | (a, b) :: t, k => if a = k then b else getA t k

/-- Update of an association list of natural-number keys. -/
def setA : List (Nat × Nat) → Nat → Nat → List (Nat × Nat)
  | [], k, v => [(k, v)]
  | (a, b) :: t, k, v => if a = k then (k, v) :: t else (a, b) :: setA t k v

/-- Global state of the page: the module-level `paymentCheckInterval`
variable, which interval handles are armed, the fresh-handle counter,
each instance's `retryCount`, the instance owning each created handle,
the in-flight status queries as (instance, handle) pairs, and the log of
terminal presenter callbacks as (handle, isSuccess) pairs. -/
structure St where
  var : Option Nat
  armed : List Nat
  next : Nat
  retry : List (Nat × Nat)
  owner : List (Nat × Nat)
  inflight : List (Nat × Nat)
  calls : List (Nat × Bool)
  deriving DecidableEq

/-- Initial page state: `paymentCheckInterval` is undefined, nothing armed. -/
def init : St := ⟨none, [], 0, [], [], [], []⟩

/-- The effect of `clearInterval(paymentCheckInterval)`: disarm the handle
currently held by the variable; a no-op when the variable is unset. -/
def clearCur (st : St) : St :=
  { st with armed := match st.var with
      | none => st.armed
      | some h => st.armed.erase h }

/-- Environment-chosen events: `start inst` is instance `inst` calling
`startPaymentCheck`; `fire h` is armed interval `h` firing (the async
callback starts and issues its fetch); `resolve i o` is the `i`-th
in-flight fetch settling with outcome `o`, running the rest of that
callback body. -/
inductive Ev where
  | start (inst : Nat) : Ev
  | fire (h : Nat) : Ev
  | resolve (i : Nat) (o : Outcome) : Ev
  deriving DecidableEq

/-- One step of the system, a direct transcription of
`startPaymentCheck` (deposit.js lines 125-150): `start` does
`clearInterval(paymentCheckInterval); this.retryCount = 0;
paymentCheckInterval = setInterval(...)`; `fire` appends an in-flight
query for the firing handle's owner; `resolve` runs the callback body
after the `await`s: on a thrown error only the catch runs; otherwise the
completed branch calls `handlePaymentSuccess()` and
`clearInterval(paymentCheckInterval)`, then `this.retryCount++` always
runs, and reaching `MAX_RETRIES` clears the interval and shows the
timed-out toast. -/
def step (st : St) (e : Ev) : St :=
  match e with
  | .start inst =>
    let st1 := clearCur st
    { var := some st1.next
      armed := st1.next :: st1.armed
      next := st1.next + 1
      retry := setA st1.retry inst 0
      owner := setA st1.owner st1.next inst
      inflight := st1.inflight
      calls := st1.calls }
  | .fire h =>
    if h ∈ st.armed then
      { st with inflight := st.inflight ++ [(getA st.owner h, h)] }
    else st
  | .resolve i o =>
    match st.inflight[i]? with
    | none => st
    | some (inst, h) =>
      let st1 := { st with inflight := st.inflight.eraseIdx i }
      match o with
      | .err => st1
      | .ok success completed =>
        let st2 :=
          if success && completed then
            clearCur { st1 with calls := st1.calls ++ [(h, true)] }
          else st1
        let r := getA st2.retry inst + 1
        let st3 := { st2 with retry := setA st2.retry inst r }
        if MAX_RETRIES ≤ r then
          clearCur { st3 with calls := st3.calls ++ [(h, false)] }
        else st3

/-- Run a list of events from a given state. -/
def runFrom (st : St) (es : List Ev) : St := es.foldl step st

/-- Run a list of events from the initial page state. -/
def run (es : List Ev) : St := runFrom init es

/-- One poll tick of the first session (handle 0): the interval fires and
its fetch settles with outcome `o` before anything else happens. -/
def tickEvs (o : Outcome) : List Ev := [.fire 0, .resolve 0 o]

/-- A sequence of sequential poll ticks of the first session. -/
def ticksEvs : List Outcome → List Ev
  | [] => []
  | o :: os => tickEvs o ++ ticksEvs os

/-- A fresh polling session: one `startPaymentCheck` call on a fresh page
followed by sequential ticks with the given outcomes. -/
def sessionTrace (os : List Outcome) : List Ev := .start 0 :: ticksEvs os

/-- The state mid-session: session 0 armed, `retryCount = k`, no query in
flight, no terminal callback yet. -/
def midState (k : Nat) : St := ⟨some 0, [0], 1, [(0, k)], [(0, 0)], [], []⟩

/-- The state after the first session timed out: interval cleared,
`retryCount = MAX_RETRIES`, the timed-out toast shown once. -/
def timedState : St := ⟨some 0, [], 1, [(0, MAX_RETRIES)], [(0, 0)], [], [(0, false)]⟩

/-- The state after the first session completed on a tick that left
`retryCount = k < MAX_RETRIES`: interval cleared, success callback fired. -/
def succState (k : Nat) : St := ⟨some 0, [], 1, [(0, k)], [(0, 0)], [], [(0, true)]⟩

/-- The state after `n` all-pending sequential ticks of a fresh session. -/
def pendState (n : Nat) : St := if n < MAX_RETRIES then midState n else timedState

/-- Structural invariant: at most the handle held by
`paymentCheckInterval` is armed, and every armed handle was created by a
past `setInterval` call. -/
def Inv (st : St) : Prop :=
  (st.armed = [] ∨ st.armed = st.var.toList) ∧ ∀ h ∈ st.armed, h < st.next

instance decidableInv (st : St) : Decidable (Inv st) :=
  inferInstanceAs (Decidable ((st.armed = [] ∨ st.armed = st.var.toList) ∧
    ∀ h ∈ st.armed, h < st.next))

/-- Outcome of `Transport.createDeposit`: the fetch/parse threw, or the
server returned JSON with the given `data.success` flag. -/
inductive CreateResp where
  | err : CreateResp
  | payload (success : Bool) : CreateResp
  deriving DecidableEq

/-- Which presenter capability `createDeposit` invoked: `showDeposit`
covers the address/QR rendering plus the success toast of
`handleSuccessfulDeposit`; `showError` is the error toast of the catch. -/
structure CreateCalls where
  showDeposit : Bool
  showError : Bool
  deriving DecidableEq

/-- Transcription of `createDeposit` (deposit.js lines 81-107) together
with `handleSuccessfulDeposit` (lines 109-123): a `success: true` payload
renders the deposit and calls `startPaymentCheck`; a rejected promise or
`success: false` payload is caught and only shows the error toast. -/
def createDeposit (st : St) (inst : Nat) (r : CreateResp) : St × CreateCalls :=
  match r with
  | .payload true => (step st (.start inst), ⟨true, false⟩)
  | .payload false => (st, ⟨false, true⟩)
  | .err => (st, ⟨false, true⟩)

theorem runFrom_append (st : St) (a b : List Ev) :
    runFrom st (a ++ b) = runFrom (runFrom st a) b := by
  simp [runFrom, List.foldl_append]

theorem ticksEvs_append (a b : List Outcome) :
    ticksEvs (a ++ b) = ticksEvs a ++ ticksEvs b := by
  induction a with
  | nil => simp [ticksEvs]
  | cons o t ih => simp [ticksEvs, ih]

theorem run_sessionTrace (os : List Outcome) :
    run (sessionTrace os) = runFrom (midState 0) (ticksEvs os) := rfl

theorem runFrom_tick (st : St) (o : Outcome) :
    runFrom st (tickEvs o) = step (step st (.fire 0)) (.resolve 0 o) := rfl

theorem tick_mid_err (k : Nat) : runFrom (midState k) (tickEvs .err) = midState k := rfl

theorem tick_timed (o : Outcome) : runFrom timedState (tickEvs o) = timedState := by
  cases o with
  | err => rfl
  | ok s c => rfl

theorem tick_mid_ok (k : Nat) (s c : Bool) (hsc : (s && c) = false)
    (hk : k + 1 < MAX_RETRIES) :
    runFrom (midState k) (tickEvs (.ok s c)) = midState (k + 1) := by
  have hne : ¬ (MAX_RETRIES ≤ k + 1) := by omega
  simp [runFrom, tickEvs, step, midState, clearCur, getA, setA, hsc, hne]

theorem tick_mid_comp (k : Nat) (hk : k + 1 < MAX_RETRIES) :
    runFrom (midState k) (tickEvs comp) = succState (k + 1) := by
  have hne : ¬ (MAX_RETRIES ≤ k + 1) := by omega
  simp [runFrom, tickEvs, step, midState, succState, comp, clearCur, getA, setA, hne]

theorem tick_mid_timeout :
    runFrom (midState (MAX_RETRIES - 1)) (tickEvs pend) = timedState := by decide

theorem step_fire_of_unarmed (st : St) (ha : st.armed = []) (n : Nat) :
    step st (.fire n) = st := by
  simp [step, ha]

theorem step_resolve_of_no_inflight (st : St) (hi : st.inflight = []) (i : Nat)
    (o : Outcome) : step st (.resolve i o) = st := by
  simp [step, hi]

theorem term_ticks (st : St) (ha : st.armed = []) (hi : st.inflight = []) :
    ∀ os, runFrom st (ticksEvs os) = st := by
  intro os
  induction os with
  | nil => rfl
  | cons o t ih =>
    show runFrom st (tickEvs o ++ ticksEvs t) = st
    rw [runFrom_append, runFrom_tick, step_fire_of_unarmed st ha,
      step_resolve_of_no_inflight st hi, ih]

theorem midRun (os : List Outcome) : ∀ k, (∀ o ∈ os, isComp o = false) →
    k + countOk os < MAX_RETRIES →
    runFrom (midState k) (ticksEvs os) = midState (k + countOk os) := by
  induction os with
  | nil => intro k _ _; simp [ticksEvs, countOk, runFrom]
  | cons o t ih =>
    intro k hc hb
    show runFrom (midState k) (tickEvs o ++ ticksEvs t) = _
    rw [runFrom_append]
    cases o with
    | err =>
      rw [tick_mid_err]
      have hcnt : countOk (Outcome.err :: t) = countOk t := by simp [countOk, isOk]
      rw [hcnt] at hb ⊢
      exact ih k (fun o ho => hc o (List.mem_cons_of_mem _ ho)) hb
    | ok s c =>
      have hsc : (s && c) = false := by
        have := hc (.ok s c) (List.mem_cons_self _ _)
        simpa [isComp] using this
      have hcnt : countOk (Outcome.ok s c :: t) = 1 + countOk t := by
        simp [countOk, isOk]
      rw [hcnt] at hb ⊢
      rw [tick_mid_ok k s c hsc (by omega)]
      have : k + (1 + countOk t) = (k + 1) + countOk t := by omega
      rw [this]
      exact ih (k + 1) (fun o ho => hc o (List.mem_cons_of_mem _ ho)) (by omega)

theorem pendRun (n : Nat) :
    runFrom (midState 0) (ticksEvs (List.replicate n pend)) = pendState n := by
  induction n with
  | zero => decide
  | succ n ih =>
    rw [List.replicate_succ' n pend, ticksEvs_append, runFrom_append, ih]
    simp only [ticksEvs, List.append_nil]
    by_cases h : n + 1 < MAX_RETRIES
    · rw [pendState, if_pos (by omega), pendState, if_pos h]
      exact tick_mid_ok n true false rfl h
    · by_cases h2 : n < MAX_RETRIES
      · have hn : n = MAX_RETRIES - 1 := by
          have : MAX_RETRIES = 20 := rfl
          omega
        rw [pendState, if_pos h2, pendState, if_neg h, hn]
        exact tick_mid_timeout
      · rw [pendState, if_neg h2, pendState, if_neg h]
        exact tick_timed pend

theorem countOk_replicate_err (n : Nat) : countOk (List.replicate n .err) = 0 := by
  induction n with
  | zero => rfl
  | succ n ih => simp [List.replicate_succ, countOk, isOk, ih]

theorem errRun (n : Nat) :
    runFrom (midState 0) (ticksEvs (List.replicate n .err)) = midState 0 := by
  have h := midRun (List.replicate n .err) 0
    (by intro o ho; rw [List.eq_of_mem_replicate ho]; rfl)
    (by rw [countOk_replicate_err]; decide)
  rwa [countOk_replicate_err] at h

theorem inv_of_armed_nil (st : St) (h : st.armed = []) : Inv st :=
  ⟨Or.inl h, by simp [h]⟩

theorem clearCur_armed_of_nil (st : St) (h : st.armed = []) :
    (clearCur st).armed = [] := by
  unfold clearCur
  cases st.var <;> simp [h]

theorem clearCur_armed (st : St) (h : Inv st) : (clearCur st).armed = [] := by
  unfold clearCur
  cases hv : st.var with
  | none =>
    rcases h.1 with h1 | h1
    · simpa using h1
    · rw [hv] at h1; simpa using h1
  | some a =>
    rcases h.1 with h1 | h1
    · simp [h1]
    · rw [hv] at h1; simp [Option.toList] at h1; simp [h1]


theorem clearCur_sublist (st : St) : (clearCur st).armed.Sublist st.armed := by
  unfold clearCur
  cases hv : st.var with
  | none => simp
  | some a => simp [List.erase_sublist]

theorem step_resolve_shape (st : St) (i : Nat) (o : Outcome) :
    (step st (.resolve i o)).var = st.var ∧ (step st (.resolve i o)).next = st.next ∧
    (step st (.resolve i o)).armed.Sublist st.armed := by
  cases hg : st.inflight[i]? with
  | none => simp [step, hg]
  | some p =>
    obtain ⟨inst, hd⟩ := p
    cases o with
    | err => simp [step, hg]
    | ok s c =>
      by_cases hsc : (s && c) = true
      · by_cases hr : MAX_RETRIES ≤ getA st.retry inst + 1
        · simp [step, hg, hsc, hr, clearCur]
          cases hv : st.var with
          | none => exact List.Sublist.refl _
          | some a => exact (List.erase_sublist _ _).trans (List.erase_sublist _ _)
        · simp [step, hg, hsc, hr, clearCur]
          cases hv : st.var with
          | none => exact List.Sublist.refl _
          | some a => exact List.erase_sublist _ _
      · have hsc2 : (s && c) = false := by simpa using hsc
        by_cases hr : MAX_RETRIES ≤ getA st.retry inst + 1
        · simp [step, hg, hsc2, hr, clearCur]
          cases hv : st.var with
          | none => exact List.Sublist.refl _
          | some a => exact List.erase_sublist _ _
        · simp [step, hg, hsc2, hr]


theorem inv_step (st : St) (e : Ev) (h : Inv st) : Inv (step st e) := by
  cases e with
  | start inst =>
    have ha := clearCur_armed st h
    constructor
    · right
      show (clearCur st).next :: (clearCur st).armed = (Option.some (clearCur st).next).toList
      rw [ha]
      rfl
    · intro x hx
      have hx2 : x ∈ (clearCur st).next :: (clearCur st).armed := hx
      rw [ha] at hx2
      have hx3 : x = (clearCur st).next := by simpa using hx2
      show x < (clearCur st).next + 1
      omega
  | fire n =>
    by_cases hm : n ∈ st.armed
    · have he : step st (.fire n) =
          { st with inflight := st.inflight ++ [(getA st.owner n, n)] } := by
        simp [step, hm]
      rw [he]
      exact ⟨h.1, h.2⟩
    · have he : step st (.fire n) = st := by simp [step, hm]
      rw [he]; exact h
  | resolve i o =>
    obtain ⟨hv, hn, hs⟩ := step_resolve_shape st i o
    constructor
    · rcases h.1 with h1 | h1
      · left
        rw [h1] at hs
        exact List.sublist_nil.mp hs
      · cases hvv : st.var with
        | none =>
          rw [hvv] at h1
          simp at h1
          left; rw [h1] at hs; exact List.sublist_nil.mp hs
        | some a =>
          rw [hvv] at h1; simp at h1
          rw [h1] at hs
          rcases List.sublist_singleton.mp hs with h2 | h2
          · left; exact h2
          · right; rw [hv, hvv, h2]; rfl
    · intro x hx
      rw [hn]
      exact h.2 x (hs.subset hx)

theorem inv_runFrom (es : List Ev) : ∀ st, Inv st → Inv (runFrom st es) := by
  induction es with
  | nil => intro st h; exact h
  | cons e t ih =>
    intro st h
    exact ih (step st e) (inv_step st e h)

theorem inv_init : Inv init := ⟨Or.inl rfl, by intro x hx; simp [init] at hx⟩

theorem inv_run (es : List Ev) : Inv (run es) := inv_runFrom es init inv_init


theorem getA_setA (l : List (Nat × Nat)) (k v : Nat) : getA (setA l k v) k = v := by
  induction l with
  | nil => simp [setA, getA]
  | cons p t ih =>
    obtain ⟨a, b⟩ := p
    by_cases hak : a = k
    · simp [setA, hak, getA]
    · simp [setA, hak, getA, ih]

theorem start_armed (st : St) (i : Nat) (h : Inv st) :
    (step st (.start i)).armed = [st.next] := by
  show (clearCur st).next :: (clearCur st).armed = [st.next]
  rw [clearCur_armed st h]
  rfl

theorem start_retry (st : St) (i : Nat) : getA (step st (.start i)).retry i = 0 :=
  getA_setA (clearCur st).retry i 0

/-- Claim C1, counterexample: a session whose status query throws on every one
of MAX_RETRIES ticks shows no timeout toast, keeps its interval armed, and still
has `retryCount = 0`: the failing ticks did not count toward the attempt budget
and the session did not reach TimedOut within maxAttempts ticks, contrary to the
claim. -/
theorem C1_counterexample :
    (run (sessionTrace (List.replicate MAX_RETRIES .err))).calls = [] ∧
    (run (sessionTrace (List.replicate MAX_RETRIES .err))).armed = [0] ∧
    getA (run (sessionTrace (List.replicate MAX_RETRIES .err))).retry 0 = 0 := by
  decide

/-- Claim C1, amended: when a status query fails, the poller stays in Polling
with no state transition, but the tick does NOT count toward the attempt
budget — `this.retryCount++` sits inside the `try` after the `await`s, so a
thrown fetch/parse error skips it.  For every n, a session whose query fails on
all n ticks has no terminal callback, an armed timer, and `retryCount = 0`: it
never reaches TimedOut. -/
theorem C1_amended (n : Nat) :
    (run (sessionTrace (List.replicate n .err))).calls = [] ∧
    (run (sessionTrace (List.replicate n .err))).armed = [0] ∧
    getA (run (sessionTrace (List.replicate n .err))).retry 0 = 0 := by
  rw [run_sessionTrace, errRun]
  exact ⟨rfl, rfl, rfl⟩

/-- Claim C2, code-bug evaluation: with status pending on ticks 1..19 and
completed on tick 20, the code fires `handlePaymentSuccess` AND the timed-out
toast on tick 20.  The completed branch does not return from the callback, so
`retryCount` is still incremented to MAX_RETRIES and the timeout branch also
runs, contradicting the claim that Succeeded is terminal and onTimeout is not
called. -/
theorem C2_success_and_timeout_both_fire :
    (run (sessionTrace (List.replicate (MAX_RETRIES - 1) pend ++ [comp]))).calls =
      [(0, true), (0, false)] := by
  decide

/-- Claim C3: for every sequence of startPolling calls and ticks, at most one
poll session is armed at any instant, and each `startPaymentCheck` call first
disarms any existing session's timer and then creates a new session whose
attempt count is reset to 0 (its armed set is exactly the fresh handle and the
calling instance's `retryCount` is 0). -/
theorem C3_at_most_one_session :
    (∀ es : List Ev, (run es).armed.length ≤ 1) ∧
    (∀ st : St, ∀ i : Nat, Inv st →
      (step st (.start i)).armed = [st.next] ∧
      getA (step st (.start i)).retry i = 0) := by
  constructor
  · intro es
    rcases (inv_run es).1 with h1 | h1
    · simp [h1]
    · rw [h1]; cases (run es).var <;> simp
  · intro st i h
    exact ⟨start_armed st i h, start_retry st i⟩

/-- Claim C3 witness: the invariant and the reset hold on concrete inputs. -/
theorem C3_witness :
    (run [.start 0, .start 1]).armed.length ≤ 1 ∧
    (step init (.start 0)).armed = [init.next] ∧
    getA (step init (.start 0)).retry 0 = 0 :=
  ⟨C3_at_most_one_session.1 [.start 0, .start 1],
   (C3_at_most_one_session.2 init 0 (by decide)).1,
   (C3_at_most_one_session.2 init 0 (by decide)).2⟩

/-- Claim C4: for a session whose status query returns Pending on every tick,
after n ticks the timed-out toast has fired exactly once if n has reached
MAX_RETRIES and never before (the calls log is empty for n < MAX_RETRIES and is
exactly one timeout entry for n >= MAX_RETRIES, when the timer is also
disarmed so no later tick can fire it again). -/
theorem C4_pending_times_out_exactly_at_cap (n : Nat) :
    (run (sessionTrace (List.replicate n pend))).calls =
      (if n < MAX_RETRIES then [] else [(0, false)]) ∧
    (run (sessionTrace (List.replicate n pend))).armed =
      (if n < MAX_RETRIES then [0] else []) := by
  rw [run_sessionTrace, pendRun, pendState]
  by_cases h : n < MAX_RETRIES
  · rw [if_pos h, if_pos h, if_pos h]; exact ⟨rfl, rfl⟩
  · rw [if_neg h, if_neg h, if_neg h]; exact ⟨rfl, rfl⟩

/-- Claim C5: a session that receives Completed on a tick while the attempt
count is still below MAX_RETRIES (after any prefix of non-completed outcomes
whose counted ticks stay under the budget) transitions to the terminal
Succeeded state: `handlePaymentSuccess` is called, the timer is disarmed, and
any further ticks leave the state unchanged. -/
theorem C5_completed_before_cap_succeeds (os : List Outcome)
    (hnc : ∀ o ∈ os, isComp o = false)
    (hb : countOk os + 1 < MAX_RETRIES) :
    (run (sessionTrace (os ++ [comp]))).calls = [(0, true)] ∧
    (run (sessionTrace (os ++ [comp]))).armed = [] ∧
    ∀ os2, runFrom (run (sessionTrace (os ++ [comp]))) (ticksEvs os2) =
      run (sessionTrace (os ++ [comp])) := by
  have hone : ticksEvs [comp] = tickEvs comp := by simp [ticksEvs]
  have hrun : run (sessionTrace (os ++ [comp])) = succState (countOk os + 1) := by
    rw [run_sessionTrace, ticksEvs_append, runFrom_append,
      midRun os 0 hnc (by omega), hone, Nat.zero_add,
      tick_mid_comp (countOk os) (by omega)]
  rw [hrun]
  exact ⟨rfl, rfl, fun os2 => term_ticks _ rfl rfl os2⟩

/-- Claim C5 witness: completing on tick 2 after one pending tick succeeds. -/
theorem C5_witness :
    (run (sessionTrace ([pend] ++ [comp]))).calls = [(0, true)] :=
  (C5_completed_before_cap_succeeds [pend] (by decide) (by decide)).1

/-- Claim C9: a session whose query fails transiently on ticks
1..MAX_RETRIES-1 and returns Completed on tick MAX_RETRIES still reaches
Succeeded: the success callback fires and the timer is disarmed. -/
theorem C9_transient_failures_then_completed_succeeds :
    (run (sessionTrace (List.replicate (MAX_RETRIES - 1) .err ++ [comp]))).calls =
      [(0, true)] ∧
    (run (sessionTrace (List.replicate (MAX_RETRIES - 1) .err ++ [comp]))).armed =
      [] := by
  decide

/-- Claim C10: the timer handle is one module-level variable shared by all
DepositManager instances, so `startPaymentCheck` on any instance disarms the
armed timer of any other instance's session, and the very first call — with the
variable still unset — is safe: `clearInterval(undefined)` is a no-op and the
call simply arms the first handle. -/
theorem C10_global_handle_across_instances :
    (∀ st : St, ∀ i : Nat, Inv st →
      ∀ hdl ∈ st.armed, hdl ∉ (step st (.start i)).armed) ∧
    step init (.start 5) = ⟨some 0, [0], 1, [(5, 0)], [(0, 5)], [], []⟩ := by
  constructor
  · intro st i hinv hdl hmem
    rw [start_armed st i hinv]
    have h2 := hinv.2 hdl hmem
    intro hmem2
    have h3 : hdl = st.next := by simpa using hmem2
    omega
  · rfl

/-- Claim C10 witness: instance 1's start disarms instance 0's timer. -/
theorem C10_witness : 0 ∉ (step (run [.start 0]) (.start 1)).armed :=
  C10_global_handle_across_instances.1 (run [.start 0]) 1 (by decide) 0 (by decide)


/-- Claim C6, counterexample: start a session, let its query go in flight,
start a superseding session, then let the stale response arrive completed.  The
stale callback of session handle 0 fires `handlePaymentSuccess` even though the
current session is handle 1, and its `clearInterval(paymentCheckInterval)`
disarms the new session's timer: a stale callback is NOT a no-op and there is
no session-identity check. -/
theorem C6_counterexample :
    (run [.start 0, .fire 0, .start 0, .resolve 0 comp]).calls = [(0, true)] ∧
    (run [.start 0, .fire 0, .start 0, .resolve 0 comp]).var = some 1 ∧
    (run [.start 0, .fire 0, .start 0, .resolve 0 comp]).armed = [] := by
  decide

/-- Claim C6, amended: the code performs no session-identity check.  A
response arriving for any in-flight query — in particular one whose handle is
not the current `paymentCheckInterval`, i.e. a superseded session's — is
processed unconditionally: a completed payload appends the success callback for
the stale handle and the `clearInterval` calls disarm the current session's
timer. -/
theorem C6_amended_stale_response_still_fires (st : St) (i inst hs : Nat)
    (hg : st.inflight[i]? = some (inst, hs))
    (_hstale : st.var ≠ some hs)
    (hinv : Inv st)
    (hr : getA st.retry inst + 1 < MAX_RETRIES) :
    (step st (.resolve i comp)).calls = st.calls ++ [(hs, true)] ∧
    (step st (.resolve i comp)).armed = [] := by
  have hnr : ¬ (MAX_RETRIES ≤ getA st.retry inst + 1) := by omega
  constructor
  · simp [step, hg, comp, clearCur, hnr]
  · simp [step, hg, comp, clearCur, hnr]
    show (match st.var with
      | none => st.armed
      | some a => st.armed.erase a) = []
    exact clearCur_armed st hinv

/-- Claim C6 witness: the amended theorem at the concrete stale trace. -/
theorem C6_witness :
    (step (run [.start 0, .fire 0, .start 0]) (.resolve 0 comp)).calls =
      (run [.start 0, .fire 0, .start 0]).calls ++ [(0, true)] ∧
    (step (run [.start 0, .fire 0, .start 0]) (.resolve 0 comp)).armed = [] :=
  C6_amended_stale_response_still_fires (run [.start 0, .fire 0, .start 0]) 0 0 0
    (by decide) (by decide) (by decide) (by decide)

/-- Claim C7: `createDeposit` renders the deposit (`showDeposit`) and starts
polling exactly when the creation payload has `success: true`; a rejected
promise or `success: false` payload only shows the error toast and leaves the
state unchanged, so no poll session is active afterward when none was before,
and a session (armed fresh handle, attempt count 0) is started only on
success. -/
theorem C7_create_deposit (st : St) (inst : Nat) (r : CreateResp) :
    (r = .payload true →
      (createDeposit st inst r).2.showDeposit = true ∧
      (createDeposit st inst r).1 = step st (.start inst)) ∧
    (r ≠ .payload true →
      (createDeposit st inst r).2.showError = true ∧
      (createDeposit st inst r).1 = st) ∧
    (r = .payload true → Inv st →
      (createDeposit st inst r).1.armed = [st.next] ∧
      getA (createDeposit st inst r).1.retry inst = 0) := by
  refine ⟨?_, ?_, ?_⟩
  · intro hre
    subst hre
    exact ⟨rfl, rfl⟩
  · intro hne
    cases r with
    | err => exact ⟨rfl, rfl⟩
    | payload b =>
      cases b with
      | false => exact ⟨rfl, rfl⟩
      | true => exact absurd rfl hne
  · intro hre hinv
    subst hre
    exact ⟨start_armed st inst hinv, start_retry st inst⟩

/-- Claim C7 witness: both branches evaluated on the initial state. -/
theorem C7_witness :
    (createDeposit init 0 (.payload true)).2.showDeposit = true ∧
    (createDeposit init 0 .err).2.showError = true :=
  ⟨((C7_create_deposit init 0 (.payload true)).1 rfl).1,
   ((C7_create_deposit init 0 .err).2.1 (by decide)).1⟩

/-- Claim C8, counterexample: after `startPaymentCheck`, the interval fires
twice before the first fetch resolves (a response slower than POLL_INTERVAL),
leaving two in-flight status queries for the same current session — queries of
one session can overlap, contrary to the claim. -/
theorem C8_counterexample :
    (run [.start 0, .fire 0, .fire 0]).inflight = [(0, 0), (0, 0)] ∧
    (run [.start 0, .fire 0, .fire 0]).var = some 0 := by
  decide

/-- Claim C8, amended: `setInterval` schedules ticks on a fixed cadence and
never waits for the previous outcome: an armed handle fires regardless of
in-flight queries, so whenever a query of a session is already in flight, a
further tick puts two simultaneous in-flight queries on that session. -/
theorem C8_amended_overlapping_queries (st : St) (hs inst : Nat)
    (ha : hs ∈ st.armed) (hf : (inst, hs) ∈ st.inflight) :
    2 ≤ (step st (.fire hs)).inflight.countP (fun e => e.2 == hs) := by
  have he : step st (.fire hs) =
      { st with inflight := st.inflight ++ [(getA st.owner hs, hs)] } := by
    simp [step, ha]
  rw [he]
  show 2 ≤ (st.inflight ++ [(getA st.owner hs, hs)]).countP (fun e => e.2 == hs)
  rw [List.countP_append]
  have h1 : 0 < st.inflight.countP (fun e => e.2 == hs) :=
    List.countP_pos_iff.mpr ⟨(inst, hs), hf, by simp⟩
  have h2 : ([((getA st.owner hs, hs) : Nat × Nat)].countP (fun e => e.2 == hs)) = 1 := by
    simp
  omega

/-- Claim C8 witness: the amended theorem at the concrete overlapping trace. -/
theorem C8_witness :
    2 ≤ (step (run [.start 0, .fire 0]) (.fire 0)).inflight.countP
      (fun e => e.2 == 0) :=
  C8_amended_overlapping_queries (run [.start 0, .fire 0]) 0 0 (by decide) (by decide)

end Deposit
